import Mathlib

/-!
Shallow embedding of the yjs update-log storage and compaction subsystem of
`apps/tauri-desktop/src-tauri/src/main.rs`.

The SQLite database is modelled as an explicit state value: the `notes` table
and the `yjs_updates` table as row lists, plus the auto-increment counter for
the fragment primary key.  Every fallible SQLite call is driven by a
`StorageOracle` that says whether the call succeeds or fails (and with which
error message), so one Lean function models every possible run of the
corresponding Rust function.  A `rusqlite` transaction publishes its effects
only at `commit`; a failure at any step rolls the whole transaction back, so
each modelled operation returns the pre-state on every error path, exactly as
SQLite guarantees for both single statements and explicit transactions.

The external CRDT engine (`yrs`) is not code of this repository; following
the specification it is a capability interface (`decode`, `apply`,
`encodeFullState`), and where a claim needs its correctness the law the
specification assumes of it is an explicit hypothesis (`CRDTEngineLaws`).
-/

/-- Opaque fragment bytes (`Vec<u8>` in the source). -/
abbrev Bytes := List Nat

instance {ε α : Type} [DecidableEq ε] [DecidableEq α] :
    DecidableEq (Except ε α) := fun x y =>
  match x, y with
  | .ok a, .ok b =>
    if h : a = b then isTrue (by rw [h]) else isFalse (by simp [h])
  | .ok _, .error _ => isFalse (by simp)
  | .error _, .ok _ => isFalse (by simp)
  | .error e, .error f =>
    if h : e = f then isTrue (by rw [h]) else isFalse (by simp [h])

/-- One row of the `notes` table (schema in `init_database`). -/
structure NoteRow where
  id : Int
  title : String
  content : String
  icon : Option String
  created_at : Int
  updated_at : Int
deriving DecidableEq

/-- One row of the `yjs_updates` table (schema in `init_database`):
`id INTEGER PRIMARY KEY AUTOINCREMENT`, `note_id`, `update_data BLOB`,
`created_at`. -/
structure FragmentRow where
  id : Nat
  note_id : Int
  update_data : Bytes
  created_at : Int
deriving DecidableEq

/-- The database state: the two tables the subsystem touches, plus the next
value of the `yjs_updates` auto-increment key.  Rows of `yjs_updates` are kept
in insertion order, so their `id` fields are strictly increasing by
construction. -/
structure DB where
  notes : List NoteRow
  yjs_updates : List FragmentRow
  next_update_id : Nat
deriving DecidableEq

/-- The rows of `yjs_updates` belonging to one note, in storage order. -/
def DB.fragsFor (db : DB) (note_id : Int) : List FragmentRow :=
  db.yjs_updates.filter (fun r => r.note_id == note_id)

/-- The `YjsUpdatePayload` argument of the two Tauri commands. -/
structure YjsUpdatePayload where
  note_id : Int
  update : Bytes
deriving DecidableEq

/-- Outcome oracle for one database operation: whether the mutex lock
succeeds, and for each fallible SQLite step either success (`none`) or
failure with the `rusqlite` error message (`some e`). -/
structure StorageOracle where
  lock_ok : Bool
  tx_begin_err : Option String
  delete_err : Option String
  insert_err : Option String
  commit_err : Option String
deriving DecidableEq

/-- The oracle of a run in which every storage step succeeds. -/
def okOracle : StorageOracle :=
  ⟨true, none, none, none, none⟩

/-- Embedding of `load_yjs_updates_for_note` (and of the identical query in
the `notes_load_yjs_updates` command):
`SELECT update_data FROM yjs_updates WHERE note_id = ?1 ORDER BY id ASC` —
the note's rows sorted ascending by primary key, then projected to their
bytes. -/
def load_yjs_updates_for_note (db : DB) (note_id : Int) : List Bytes :=
  (List.insertionSort (fun a b => a.id ≤ b.id) (db.fragsFor note_id)).map
    FragmentRow.update_data

/-- Embedding of the Tauri command `notes_save_yjs_update`: lock the shared
connection, then a single
`INSERT INTO yjs_updates (note_id, update_data, created_at) VALUES (?1, ?2, ?3)`
with `now = now_unix_seconds()`.  No transaction, no read, no decode, and no
touch of the `notes` table. -/
def notes_save_yjs_update (db : DB) (payload : YjsUpdatePayload) (now : Int)
    (o : StorageOracle) : DB × Except String Unit :=
  if o.lock_ok = false then (db, .error "Failed to lock database")
  else
    match o.insert_err with
    | some e => (db, .error e)
    | none =>
      ({ db with
          yjs_updates := db.yjs_updates ++
            [⟨db.next_update_id, payload.note_id, payload.update, now⟩],
          next_update_id := db.next_update_id + 1 },
        .ok ())

/-- Embedding of the helper `replace_yjs_updates_for_note`: inside one
transaction, `DELETE FROM yjs_updates WHERE note_id = ?1` then
`INSERT INTO yjs_updates (note_id, update_data, created_at) VALUES (?1, ?2, ?3)`,
then `commit`.  Effects become visible only at the commit; any failing step
rolls the whole transaction back, so every error path returns the unchanged
pre-state. -/
def replace_yjs_updates_for_note (db : DB) (note_id : Int) (update : Bytes)
    (now : Int) (o : StorageOracle) : DB × Except String Unit :=
  match o.tx_begin_err with
  | some e => (db, .error e)
  | none =>
    match o.delete_err with
    | some e => (db, .error e)
    | none =>
      let afterDelete : DB :=
        { db with
            yjs_updates := db.yjs_updates.filter (fun r => !(r.note_id == note_id)) }
      match o.insert_err with
      | some e => (db, .error e)
      | none =>
        let afterInsert : DB :=
          { afterDelete with
              yjs_updates := afterDelete.yjs_updates ++
                [⟨db.next_update_id, note_id, update, now⟩],
              next_update_id := db.next_update_id + 1 }
        match o.commit_err with
        | some e => (db, .error e)
        | none => (afterInsert, .ok ())

/-- Embedding of the Tauri command `notes_replace_yjs_updates`: lock the
shared connection, then the same delete-then-insert transaction as
`replace_yjs_updates_for_note`, on the payload's note and bytes. -/
def notes_replace_yjs_updates (db : DB) (payload : YjsUpdatePayload)
    (now : Int) (o : StorageOracle) : DB × Except String Unit :=
  if o.lock_ok = false then (db, .error "Failed to lock database")
  else replace_yjs_updates_for_note db payload.note_id payload.update now o

/-- Embedding of `get_unique_note_ids`:
`SELECT note_id FROM yjs_updates GROUP BY note_id` — every distinct `note_id`
present in the table, each once. -/
def get_unique_note_ids (db : DB) : List Int :=
  (db.yjs_updates.map FragmentRow.note_id).dedup

/-- Modelled from the spec: the external CRDT engine (`yrs` in the source is
an external crate, not code of this repository).  Per the specification it is
a capability interface with exactly the operations the core requires:
`decode` a fragment (`Update::decode_v1`, which may fail), `apply` a decoded
update to a running document state (`TransactionMut::apply_update`), and
`encodeFullState` (`encode_state_as_update_v1` against the empty state
vector), starting from a fresh empty document (`Doc::new`). -/
structure CRDTEngine (σ υ : Type) where
  empty : σ
  decode : Bytes → Except String υ
  apply : σ → υ → σ
  encodeFullState : σ → Bytes

/-- Modelled from the spec: the correctness the specification assumes of the
external, already-correct CRDT engine — encoding the full current state as
one fragment against an empty baseline and replaying that single fragment
into a fresh document reproduces the state. -/
structure CRDTEngineLaws {σ υ : Type} (E : CRDTEngine σ υ) : Prop where
  roundtrip : ∀ s : σ, ∃ u, E.decode (E.encodeFullState s) = .ok u ∧
    E.apply E.empty u = s

/-- The decode-and-apply loop of `compact_note_updates`:
`for update in updates { let decoded = Update::decode_v1(&update)?;`
`txn.apply_update(decoded); }` — the first fragment that fails to decode
aborts the whole loop with its error. -/
def applyUpdates {σ υ : Type} (E : CRDTEngine σ υ) :
    σ → List Bytes → Except String σ
  | s, [] => .ok s
  | s, u :: rest =>
    match E.decode u with
    | .error e => .error e
    | .ok d => applyUpdates E (E.apply s d) rest

/-- Replaying a fragment list into a fresh empty document: the
`Doc::new()` + decode-and-apply sequence of `compact_note_updates` (the same
replay the spec calls `Materialize`). -/
def materializeState {σ υ : Type} (E : CRDTEngine σ υ) (updates : List Bytes) :
    Except String σ :=
  applyUpdates E E.empty updates

/-- Embedding of `compact_note_updates`: load the note's ordered fragments;
if there are `<= 1` of them return `(before, before)` untouched; otherwise
replay them into a fresh document, encode the full state as one fragment, and
`replace_yjs_updates_for_note`; return `(before, 1)`.  The returned `DB` is
the state after the call: unchanged on every error path. -/
def compact_note_updates {σ υ : Type} (E : CRDTEngine σ υ) (db : DB)
    (note_id : Int) (now : Int) (o : StorageOracle) :
    DB × Except String (Nat × Nat) :=
  let updates := load_yjs_updates_for_note db note_id
  let updates_before := updates.length
  if updates_before ≤ 1 then (db, .ok (updates_before, updates_before))
  else
    match materializeState E updates with
    | .error e => (db, .error e)
    | .ok docState =>
      let compacted := E.encodeFullState docState
      match replace_yjs_updates_for_note db note_id compacted now o with
      | (_, .error e) => (db, .error e)
      | (db', .ok _) => (db', .ok (updates_before, 1))

/-- The `for note_id in note_ids` loop of `compact_all_notes`: each note is
compacted in turn; a failure is recorded (the source's
`eprintln!("Failed to compact note ...")`) and the loop continues with the
next note. -/
def sweepNotes {σ υ : Type} (E : CRDTEngine σ υ) (now : Int)
    (oracle : Int → StorageOracle) :
    List Int → DB → List (Int × String) → DB × List (Int × String)
  | [], db, fails => (db, fails.reverse)
  | id :: rest, db, fails =>
    match compact_note_updates E db id now (oracle id) with
    | (db', .ok _) => sweepNotes E now oracle rest db' fails
    | (db', .error e) => sweepNotes E now oracle rest db' ((id, e) :: fails)

/-- Embedding of `compact_all_notes`: list the distinct note ids present in
`yjs_updates`, then run `compact_note_updates` on each, recording failures
and never aborting the sweep.  Returns the final state and the recorded
failures. -/
def compact_all_notes {σ υ : Type} (E : CRDTEngine σ υ) (db : DB) (now : Int)
    (oracle : Int → StorageOracle) : DB × List (Int × String) :=
  sweepNotes E now oracle (get_unique_note_ids db) db []

/-- A concrete conformant CRDT engine used to instantiate witnesses: the
max-register CRDT over `Nat` (merge by maximum is commutative, associative
and idempotent).  A fragment is the one-element list `[n]`; anything else
fails to decode. -/
def maxEngine : CRDTEngine Nat Nat where
  empty := 0
  decode := fun b =>
    match b with
    | [n] => .ok n
    | _ => .error "corrupt fragment"
  apply := fun s u => Nat.max s u
  encodeFullState := fun s => [s]

/-- The max-register engine satisfies the round-trip law the specification
assumes of the external engine. -/
theorem maxEngine_laws : CRDTEngineLaws maxEngine :=
  ⟨fun s => ⟨s, rfl, Nat.zero_max s⟩⟩

/-- A run of `replace_yjs_updates_for_note` in which every storage step
succeeds commits the delete-then-insert transaction. -/
lemma replace_ok (db : DB) (note_id : Int) (u : Bytes) (now : Int) :
    replace_yjs_updates_for_note db note_id u now okOracle =
      (⟨db.notes,
        db.yjs_updates.filter (fun r => !(r.note_id == note_id)) ++
          [⟨db.next_update_id, note_id, u, now⟩],
        db.next_update_id + 1⟩, .ok ()) := rfl

/-- Outcome analysis of `replace_yjs_updates_for_note`: either some step
failed and the transaction rolled back (the returned state is the pre-state),
or every step succeeded and the committed state is the pre-state with the
note's rows deleted and the single new row appended. -/
lemma replace_outcome (db : DB) (note_id : Int) (u : Bytes) (now : Int)
    (o : StorageOracle) (db' : DB) (res : Except String Unit)
    (h : replace_yjs_updates_for_note db note_id u now o = (db', res)) :
    (db' = db ∧ ∃ e, res = .error e) ∨
    (res = .ok () ∧
      db' = ⟨db.notes,
        db.yjs_updates.filter (fun r => !(r.note_id == note_id)) ++
          [⟨db.next_update_id, note_id, u, now⟩],
        db.next_update_id + 1⟩) := by
  rcases o with ⟨l, tb, d, i, c⟩
  cases tb <;> cases d <;> cases i <;> cases c <;>
    simp only [replace_yjs_updates_for_note, Prod.mk.injEq] at h <;>
    first
      | exact Or.inl ⟨h.1.symm, ⟨_, h.2.symm⟩⟩
      | exact Or.inr ⟨h.2.symm, h.1.symm⟩

/-- Outcome analysis of `notes_save_yjs_update`: either the lock or the
single insert failed and the state is unchanged, or the one new row was
appended. -/
lemma save_outcome (db : DB) (payload : YjsUpdatePayload) (now : Int)
    (o : StorageOracle) (db' : DB) (res : Except String Unit)
    (h : notes_save_yjs_update db payload now o = (db', res)) :
    (db' = db ∧ ∃ e, res = .error e) ∨
    (res = .ok () ∧
      db' = ⟨db.notes,
        db.yjs_updates ++
          [⟨db.next_update_id, payload.note_id, payload.update, now⟩],
        db.next_update_id + 1⟩) := by
  unfold notes_save_yjs_update at h
  split at h
  · injection h with h1 h2
    exact Or.inl ⟨h1.symm, ⟨_, h2.symm⟩⟩
  · split at h
    · injection h with h1 h2
      exact Or.inl ⟨h1.symm, ⟨_, h2.symm⟩⟩
    · injection h with h1 h2
      exact Or.inr ⟨h2.symm, h1.symm⟩

/-- Deleting a note's rows then filtering for that note yields nothing. -/
lemma filter_after_erase_self (l : List FragmentRow) (n : Int) :
    (l.filter (fun r => !(r.note_id == n))).filter (fun r => r.note_id == n)
      = [] := by
  induction l with
  | nil => rfl
  | cons a t ih =>
    by_cases h : a.note_id = n <;> simp [List.filter_cons, beq_iff_eq, h, ih]

/-- Deleting one note's rows leaves every other note's rows untouched. -/
lemma filter_after_erase_other (l : List FragmentRow) (n j : Int) (hj : j ≠ n) :
    (l.filter (fun r => !(r.note_id == n))).filter (fun r => r.note_id == j)
      = l.filter (fun r => r.note_id == j) := by
  induction l with
  | nil => rfl
  | cons a t ih =>
    by_cases h : a.note_id = n
    · have hne : a.note_id ≠ j := fun hh => hj (hh ▸ h)
      simp [List.filter_cons, beq_iff_eq, h, hne, Ne.symm hj, ih]
    · by_cases h2 : a.note_id = j <;>
        simp [List.filter_cons, beq_iff_eq, h, h2, hj, ih]

/-- After a committed replace, the note's stored fragment set is exactly the
single new row. -/
lemma fragsFor_replaced_self (db : DB) (n : Int) (u : Bytes) (now : Int) :
    (DB.mk db.notes
      (db.yjs_updates.filter (fun r => !(r.note_id == n)) ++
        [⟨db.next_update_id, n, u, now⟩])
      (db.next_update_id + 1)).fragsFor n = [⟨db.next_update_id, n, u, now⟩] := by
  simp [DB.fragsFor, List.filter_append, filter_after_erase_self,
    List.filter_cons]

/-- After a committed replace of one note, every other note's stored
fragment set is unchanged. -/
lemma fragsFor_replaced_other (db : DB) (n : Int) (u : Bytes) (now : Int)
    (j : Int) (hj : j ≠ n) :
    (DB.mk db.notes
      (db.yjs_updates.filter (fun r => !(r.note_id == n)) ++
        [⟨db.next_update_id, n, u, now⟩])
      (db.next_update_id + 1)).fragsFor j = db.fragsFor j := by
  have hne : n ≠ j := fun hh => hj hh.symm
  simp [DB.fragsFor, List.filter_append, filter_after_erase_other _ _ _ hj,
    List.filter_cons, beq_iff_eq, hne]

/-- The ordered load depends only on the note's stored fragment rows. -/
lemma load_eq_of_fragsFor_eq (db1 db2 : DB) (n : Int)
    (h : db1.fragsFor n = db2.fragsFor n) :
    load_yjs_updates_for_note db1 n = load_yjs_updates_for_note db2 n := by
  unfold load_yjs_updates_for_note
  rw [h]

/-- The ordered load returns one byte string per stored row of the note. -/
lemma load_length (db : DB) (n : Int) :
    (load_yjs_updates_for_note db n).length = (db.fragsFor n).length := by
  simp [load_yjs_updates_for_note, List.length_insertionSort]

/-- Loading a note whose stored set is a single row yields that row's bytes. -/
lemma load_singleton (db : DB) (n : Int) (row : FragmentRow)
    (h : db.fragsFor n = [row]) :
    load_yjs_updates_for_note db n = [row.update_data] := by
  unfold load_yjs_updates_for_note
  rw [h]
  rfl

/-- Membership in `get_unique_note_ids` is exactly having at least one
stored fragment. -/
lemma mem_get_unique_note_ids (db : DB) (id : Int) :
    id ∈ get_unique_note_ids db ↔ db.fragsFor id ≠ [] := by
  simp only [get_unique_note_ids, List.mem_dedup, List.mem_map, DB.fragsFor,
    Ne, List.filter_eq_nil_iff, beq_iff_eq]
  push_neg
  constructor
  · rintro ⟨r, hr, rfl⟩
    exact ⟨r, hr, rfl⟩
  · rintro ⟨r, hr, h⟩
    exact ⟨r, hr, h⟩

/-- Replaying a single full-state fragment into a fresh document recovers
the encoded state, by the engine's round-trip law. -/
lemma materializeState_encoded {σ υ : Type} (E : CRDTEngine σ υ)
    (laws : CRDTEngineLaws E) (s : σ) :
    materializeState E [E.encodeFullState s] = .ok s := by
  obtain ⟨u, hdec, happ⟩ := laws.roundtrip s
  unfold materializeState applyUpdates
  rw [hdec]
  unfold applyUpdates
  rw [happ]

/-- The decode-and-apply loop fails exactly at the first fragment that does
not decode: the returned error is that fragment's decode error, and every
earlier fragment decoded successfully. -/
lemma applyUpdates_first_error {σ υ : Type} (E : CRDTEngine σ υ)
    (l : List Bytes) (hbad : ∃ u ∈ l, ∃ e, E.decode u = .error e) :
    ∃ i v e, l.get? i = some v ∧ E.decode v = .error e ∧
      (∀ j w, j < i → l.get? j = some w → ∃ d, E.decode w = .ok d) ∧
      ∀ s : σ, applyUpdates E s l = .error e := by
  induction l with
  | nil => simp at hbad
  | cons u t ih =>
    cases hd : E.decode u with
    | error e =>
      refine ⟨0, u, e, rfl, hd, ?_, ?_⟩
      · intro j w hj _
        exact absurd hj (Nat.not_lt_zero j)
      · intro s
        simp [applyUpdates, hd]
    | ok d =>
      have hbad' : ∃ u' ∈ t, ∃ e, E.decode u' = .error e := by
        obtain ⟨u', hu', e, he⟩ := hbad
        rcases List.mem_cons.mp hu' with rfl | hmem
        · rw [hd] at he
          exact absurd he (by simp)
        · exact ⟨u', hmem, e, he⟩
      obtain ⟨i, v, e, hget, hdec, hearlier, happ⟩ := ih hbad'
      refine ⟨i + 1, v, e, by simpa using hget, hdec, ?_, ?_⟩
      · intro j w hj hw
        cases j with
        | zero =>
          have : u = w := by simpa using hw
          exact ⟨d, this ▸ hd⟩
        | succ j' =>
          exact hearlier j' w (Nat.lt_of_succ_lt_succ hj) (by simpa using hw)
      · intro s
        simp [applyUpdates, hd, happ]

/-- Embedded `compact_note_updates` with at most one stored fragment returns
the equal before/after pair and the untouched state. -/
lemma compact_noop {σ υ : Type} (E : CRDTEngine σ υ) (db : DB) (n : Int)
    (now : Int) (o : StorageOracle)
    (h : (load_yjs_updates_for_note db n).length ≤ 1) :
    compact_note_updates E db n now o =
      (db, .ok ((load_yjs_updates_for_note db n).length,
        (load_yjs_updates_for_note db n).length)) := by
  unfold compact_note_updates
  simp [h]

/-- Embedded `compact_note_updates` on a note whose replay fails returns the
replay error and leaves the state untouched. -/
lemma compact_err_decode {σ υ : Type} (E : CRDTEngine σ υ) (db : DB) (n : Int)
    (now : Int) (o : StorageOracle) (e : String)
    (hmany : 1 < (load_yjs_updates_for_note db n).length)
    (herr : materializeState E (load_yjs_updates_for_note db n) = .error e) :
    compact_note_updates E db n now o = (db, .error e) := by
  unfold compact_note_updates
  rw [if_neg (by omega)]
  rw [herr]

/-- Embedded `compact_note_updates` on a note with several fragments whose
replay succeeds and whose storage steps all succeed commits the replace and
returns the before/after counts. -/
lemma compact_ok_shape {σ υ : Type} (E : CRDTEngine σ υ) (db : DB) (n : Int)
    (now : Int) (s : σ)
    (hmany : 1 < (load_yjs_updates_for_note db n).length)
    (hs : materializeState E (load_yjs_updates_for_note db n) = .ok s) :
    compact_note_updates E db n now okOracle =
      (⟨db.notes,
        db.yjs_updates.filter (fun r => !(r.note_id == n)) ++
          [⟨db.next_update_id, n, E.encodeFullState s, now⟩],
        db.next_update_id + 1⟩,
        .ok ((load_yjs_updates_for_note db n).length, 1)) := by
  unfold compact_note_updates
  rw [if_neg (by omega), hs]
  dsimp only
  rw [replace_ok]

/-- Frame property of a single compaction: whatever the oracle and the
engine do, `compact_note_updates` leaves the `notes` table and every other
note's fragment rows untouched. -/
lemma compact_frame {σ υ : Type} (E : CRDTEngine σ υ) (db : DB) (n : Int)
    (now : Int) (o : StorageOracle) :
    ((compact_note_updates E db n now o).1).notes = db.notes ∧
    ∀ j, j ≠ n → ((compact_note_updates E db n now o).1).fragsFor j
      = db.fragsFor j := by
  by_cases hb : (load_yjs_updates_for_note db n).length ≤ 1
  · rw [compact_noop E db n now o hb]
    exact ⟨rfl, fun j _ => rfl⟩
  · cases hm : materializeState E (load_yjs_updates_for_note db n) with
    | error e =>
      rw [compact_err_decode E db n now o e (by omega) hm]
      exact ⟨rfl, fun j _ => rfl⟩
    | ok s =>
      unfold compact_note_updates
      rw [if_neg hb, hm]
      dsimp only
      rcases hr : replace_yjs_updates_for_note db n (E.encodeFullState s) now o
        with ⟨dbr, resr⟩
      cases resr with
      | error e => exact ⟨rfl, fun j _ => rfl⟩
      | ok a =>
        rcases replace_outcome db n (E.encodeFullState s) now o dbr (.ok a) hr
          with ⟨-, e, he⟩ | ⟨-, rfl⟩
        · exact absurd he (by simp)
        · exact ⟨rfl, fun j hj => fragsFor_replaced_other db n _ now j hj⟩

/-- Compacting a note that has at least one fragment, all of whose fragments
replay successfully, under an all-success oracle leaves it with exactly one
stored fragment. -/
lemma compact_ok_self_len {σ υ : Type} (E : CRDTEngine σ υ) (db : DB)
    (n : Int) (now : Int) (hone : 1 ≤ (db.fragsFor n).length)
    (hdec : ∃ s, materializeState E (load_yjs_updates_for_note db n) = .ok s) :
    (((compact_note_updates E db n now okOracle).1).fragsFor n).length = 1 := by
  by_cases hb : (load_yjs_updates_for_note db n).length ≤ 1
  · rw [compact_noop E db n now okOracle hb]
    show (db.fragsFor n).length = 1
    have hl := load_length db n
    omega
  · obtain ⟨s, hs⟩ := hdec
    rw [compact_ok_shape E db n now s (by omega) hs]
    rw [fragsFor_replaced_self]
    rfl

/-- Sweeping a list of note ids that does not contain `id` leaves `id`'s
stored fragment rows untouched. -/
lemma sweepNotes_preserves {σ υ : Type} (E : CRDTEngine σ υ) (now : Int)
    (oracle : Int → StorageOracle) (ids : List Int) (db : DB)
    (fails : List (Int × String)) (id : Int) (h : id ∉ ids) :
    ((sweepNotes E now oracle ids db fails).1).fragsFor id = db.fragsFor id := by
  induction ids generalizing db fails with
  | nil => rfl
  | cons j rest ih =>
    have hj : id ≠ j := fun hh => h (hh ▸ List.mem_cons_self j rest)
    have hrest : id ∉ rest := fun hh => h (List.mem_cons_of_mem j hh)
    unfold sweepNotes
    rcases hc : compact_note_updates E db j now (oracle j) with ⟨db1, res1⟩
    have hfr : db1.fragsFor id = db.fragsFor id := by
      have h2 := (compact_frame E db j now (oracle j)).2 id hj
      rw [hc] at h2
      exact h2
    cases res1 with
    | ok p =>
      exact (ih db1 fails hrest).trans hfr
    | error e =>
      exact (ih db1 ((j, e) :: fails) hrest).trans hfr

/-- Failures already recorded survive to the end of the sweep. -/
lemma sweepNotes_fails_mono {σ υ : Type} (E : CRDTEngine σ υ) (now : Int)
    (oracle : Int → StorageOracle) (ids : List Int) (db : DB)
    (fails : List (Int × String)) (p : Int × String) (hp : p ∈ fails) :
    p ∈ (sweepNotes E now oracle ids db fails).2 := by
  induction ids generalizing db fails with
  | nil =>
    simp only [sweepNotes]
    exact List.mem_reverse.mpr hp
  | cons j rest ih =>
    unfold sweepNotes
    rcases hc : compact_note_updates E db j now (oracle j) with ⟨db1, res1⟩
    cases res1 with
    | ok q => exact ih db1 fails hp
    | error e => exact ih db1 ((j, e) :: fails) (List.mem_cons_of_mem _ hp)

/-- If a candidate note has at least one fragment, all of its fragments
replay successfully and its own storage steps succeed, then the sweep leaves
it with exactly one stored fragment — regardless of what happens to every
other note in the list. -/
lemma sweepNotes_compacts {σ υ : Type} (E : CRDTEngine σ υ) (now : Int)
    (oracle : Int → StorageOracle) (ids : List Int) (db : DB)
    (fails : List (Int × String)) (id : Int)
    (hok : oracle id = okOracle)
    (hmem : id ∈ ids) (hnodup : ids.Nodup)
    (hone : 1 ≤ (db.fragsFor id).length)
    (hdec : ∃ s, materializeState E (load_yjs_updates_for_note db id) = .ok s) :
    (((sweepNotes E now oracle ids db fails).1).fragsFor id).length = 1 := by
  revert hmem hnodup hone hdec
  induction ids generalizing db fails with
  | nil =>
    intro hmem _ _ _
    simp at hmem
  | cons j rest ih =>
    intro hmem hnodup hone hdec
    rcases List.mem_cons.mp hmem with rfl | hmem'
    · unfold sweepNotes
      rcases hc : compact_note_updates E db id now (oracle id) with ⟨db1, res1⟩
      have hlen : (db1.fragsFor id).length = 1 := by
        have h1 := compact_ok_self_len E db id now hone hdec
        rw [hok] at hc
        rw [hc] at h1
        exact h1
      have hnotin : id ∉ rest := (List.nodup_cons.mp hnodup).1
      cases res1 with
      | ok p =>
        show (((sweepNotes E now oracle rest db1 fails).1).fragsFor id).length = 1
        rw [sweepNotes_preserves E now oracle rest db1 fails id hnotin]
        exact hlen
      | error e =>
        show (((sweepNotes E now oracle rest db1
          ((id, e) :: fails)).1).fragsFor id).length = 1
        rw [sweepNotes_preserves E now oracle rest db1 ((id, e) :: fails) id hnotin]
        exact hlen
    · have hj : j ≠ id := fun hh => (List.nodup_cons.mp hnodup).1 (hh ▸ hmem')
      unfold sweepNotes
      rcases hc : compact_note_updates E db j now (oracle j) with ⟨db1, res1⟩
      have hfr : db1.fragsFor id = db.fragsFor id := by
        have h2 := (compact_frame E db j now (oracle j)).2 id (fun hh => hj hh.symm)
        rw [hc] at h2
        exact h2
      have hone1 : 1 ≤ (db1.fragsFor id).length := by
        rw [hfr]
        exact hone
      have hdec1 : ∃ s, materializeState E (load_yjs_updates_for_note db1 id)
          = .ok s := by
        rw [load_eq_of_fragsFor_eq db1 db id hfr]
        exact hdec
      have hnodup' := (List.nodup_cons.mp hnodup).2
      cases res1 with
      | ok p => exact ih db1 fails hmem' hnodup' hone1 hdec1
      | error e => exact ih db1 ((j, e) :: fails) hmem' hnodup' hone1 hdec1

/-- The success-or-error result of the replace transaction is decided by the
oracle alone: every error path returns the oracle's error before commit and
the all-success path commits, independently of the state and the bytes
written. -/
lemma replace_snd_eq (db1 db2 : DB) (n1 n2 : Int) (u1 u2 : Bytes)
    (now1 now2 : Int) (o : StorageOracle) :
    (replace_yjs_updates_for_note db1 n1 u1 now1 o).2
      = (replace_yjs_updates_for_note db2 n2 u2 now2 o).2 := by
  rcases o with ⟨l, tb, d, i, c⟩
  cases tb <;> cases d <;> cases i <;> cases c <;> rfl

/-- The success-or-error result of compacting a note depends only on the
note's stored fragment rows and the oracle: the loaded fragments decide the
no-op and decode branches, and the replace outcome is decided by the oracle
(`replace_snd_eq`). -/
lemma compact_snd_congr {σ υ : Type} (E : CRDTEngine σ υ) (db1 db2 : DB)
    (id : Int) (now : Int) (o : StorageOracle)
    (h : db1.fragsFor id = db2.fragsFor id) :
    (compact_note_updates E db1 id now o).2
      = (compact_note_updates E db2 id now o).2 := by
  have hl : load_yjs_updates_for_note db1 id = load_yjs_updates_for_note db2 id :=
    load_eq_of_fragsFor_eq db1 db2 id h
  unfold compact_note_updates
  rw [hl]
  by_cases hb : (load_yjs_updates_for_note db2 id).length ≤ 1
  · rw [if_pos hb, if_pos hb]
  · rw [if_neg hb, if_neg hb]
    cases hm : materializeState E (load_yjs_updates_for_note db2 id) with
    | error e => rfl
    | ok s =>
      dsimp only
      rcases hr1 : replace_yjs_updates_for_note db1 id (E.encodeFullState s)
          now o with ⟨a1, r1⟩
      rcases hr2 : replace_yjs_updates_for_note db2 id (E.encodeFullState s)
          now o with ⟨a2, r2⟩
      have hr : r1 = r2 := by
        have heq := replace_snd_eq db1 db2 id id (E.encodeFullState s)
          (E.encodeFullState s) now now o
        rw [hr1, hr2] at heq
        exact heq
      subst hr
      cases r1 <;> rfl

/-- If compacting a candidate note from the pre-sweep state would fail —
for any reason the model expresses: a fragment that does not decode or a
storage step the oracle fails — then the sweep records a failure for that
note and continues. -/
lemma sweepNotes_records {σ υ : Type} (E : CRDTEngine σ υ) (now : Int)
    (oracle : Int → StorageOracle) (ids : List Int) (db : DB)
    (fails : List (Int × String)) (id : Int)
    (hmem : id ∈ ids) (hnodup : ids.Nodup)
    (hbad : ∃ e, (compact_note_updates E db id now (oracle id)).2
      = .error e) :
    ∃ e, (id, e) ∈ (sweepNotes E now oracle ids db fails).2 := by
  revert hmem hnodup hbad
  induction ids generalizing db fails with
  | nil =>
    intro hmem _ _
    simp at hmem
  | cons j rest ih =>
    intro hmem hnodup hbad
    rcases List.mem_cons.mp hmem with rfl | hmem'
    · obtain ⟨e, he⟩ := hbad
      unfold sweepNotes
      rcases hc : compact_note_updates E db id now (oracle id) with ⟨db1, res1⟩
      rw [hc] at he
      have hres : res1 = .error e := he
      subst hres
      exact ⟨e, sweepNotes_fails_mono E now oracle rest db1 ((id, e) :: fails)
        (id, e) (List.mem_cons_self _ _)⟩
    · unfold sweepNotes
      rcases hc : compact_note_updates E db j now (oracle j) with ⟨db1, res1⟩
      have hfr : db1.fragsFor id = db.fragsFor id := by
        have hj : j ≠ id :=
          fun hh => (List.nodup_cons.mp hnodup).1 (hh ▸ hmem')
        have h2 := (compact_frame E db j now (oracle j)).2 id (fun hh => hj hh.symm)
        rw [hc] at h2
        exact h2
      have hbad1 : ∃ e, (compact_note_updates E db1 id now (oracle id)).2
          = .error e := by
        rw [compact_snd_congr E db1 db id now (oracle id) hfr]
        exact hbad
      have hnodup' := (List.nodup_cons.mp hnodup).2
      cases res1 with
      | ok p =>
        exact ih db1 fails hmem' hnodup' hbad1
      | error e =>
        exact ih db1 ((j, e) :: fails) hmem' hnodup' hbad1

/-- Claim C1: `ReplaceAll` (the replace-yjs-updates operation, both the
`notes_replace_yjs_updates` command and the `replace_yjs_updates_for_note`
helper) deletes every existing fragment for the note and inserts exactly one
new fragment inside a single transaction: every run ends in either the
pre-replace state (when any step fails before commit, the stored fragment
set is unchanged) or the post-replace state in which the note's stored set
is exactly the single new fragment and every other note's set is untouched —
never a mix. -/
theorem replace_all_atomic (db : DB) (note_id : Int) (update : Bytes)
    (now : Int) (o : StorageOracle) (db' : DB) (res : Except String Unit)
    (h : replace_yjs_updates_for_note db note_id update now o = (db', res) ∨
      notes_replace_yjs_updates db ⟨note_id, update⟩ now o = (db', res)) :
    (db' = db ∧ res ≠ .ok ()) ∨
    (res = .ok () ∧
      load_yjs_updates_for_note db' note_id = [update] ∧
      (∀ j, j ≠ note_id → db'.fragsFor j = db.fragsFor j) ∧
      db'.notes = db.notes) := by
  have helper : replace_yjs_updates_for_note db note_id update now o = (db', res) →
      (db' = db ∧ res ≠ .ok ()) ∨
      (res = .ok () ∧
        load_yjs_updates_for_note db' note_id = [update] ∧
        (∀ j, j ≠ note_id → db'.fragsFor j = db.fragsFor j) ∧
        db'.notes = db.notes) := by
    intro hh
    rcases replace_outcome db note_id update now o db' res hh
      with ⟨hdb, e, he⟩ | ⟨hres, hdb⟩
    · exact Or.inl ⟨hdb, by simp [he]⟩
    · subst hdb
      refine Or.inr ⟨hres, ?_,
        fun j hj => fragsFor_replaced_other db note_id update now j hj, rfl⟩
      have hself := fragsFor_replaced_self db note_id update now
      simpa using load_singleton _ note_id _ hself
  rcases h with h | h
  · exact helper h
  · unfold notes_replace_yjs_updates at h
    split at h
    · injection h with h1 h2
      exact Or.inl ⟨h1.symm, by rw [← h2]; simp⟩
    · exact helper h

/-- Witness for C1: replacing note 1's two fragments with `[9]` from the
concrete two-note store succeeds and the post-state holds exactly the one
new fragment for note 1. -/
theorem replace_all_atomic_witness :
    load_yjs_updates_for_note (⟨[], [⟨1, 2, [4], 0⟩, ⟨2, 1, [9], 7⟩], 3⟩ : DB) 1
      = [[9]] := by
  have h := replace_all_atomic ⟨[], [⟨0, 1, [3], 0⟩, ⟨1, 2, [4], 0⟩], 2⟩ 1 [9] 7
    okOracle ⟨[], [⟨1, 2, [4], 0⟩, ⟨2, 1, [9], 7⟩], 3⟩ (.ok ()) (Or.inl (by decide))
  rcases h with ⟨-, hne⟩ | ⟨-, hload, -⟩
  · exact absurd rfl hne
  · exact hload

/-- Claim C2: materializing a fragment sequence through the CRDT engine
yields the same document state as materializing the single squashed fragment
(the full-state encoding that compaction writes back), for every engine
satisfying the round-trip law the specification assumes of the external
engine. -/
theorem replay_equivalence {σ υ : Type} (E : CRDTEngine σ υ)
    (laws : CRDTEngineLaws E) (frags : List Bytes) (s : σ)
    (h : materializeState E frags = .ok s) :
    materializeState E [E.encodeFullState s] = materializeState E frags := by
  rw [h, materializeState_encoded E laws s]

/-- Witness for C2: over the max-register engine, replaying `[3]` then `[5]`
and replaying the squashed full-state fragment agree. -/
theorem replay_equivalence_witness :
    materializeState maxEngine [maxEngine.encodeFullState 5]
      = materializeState maxEngine [[3], [5]] :=
  replay_equivalence maxEngine maxEngine_laws [[3], [5]] 5 (by decide)

/-- Claim C3: a successful `compact_note_updates` on a note with more than
one stored fragment returns the pair (number of fragments before, 1) and
leaves the note with exactly one stored fragment, the full-state encoding of
the replayed document. -/
theorem compact_many_returns_single {σ υ : Type} (E : CRDTEngine σ υ)
    (db : DB) (note_id : Int) (now : Int) (o : StorageOracle) (db' : DB)
    (p : Nat × Nat)
    (hmany : 1 < (load_yjs_updates_for_note db note_id).length)
    (h : compact_note_updates E db note_id now o = (db', .ok p)) :
    p = ((load_yjs_updates_for_note db note_id).length, 1) ∧
    ∃ s, materializeState E (load_yjs_updates_for_note db note_id) = .ok s ∧
      load_yjs_updates_for_note db' note_id = [E.encodeFullState s] := by
  unfold compact_note_updates at h
  rw [if_neg (by omega)] at h
  cases hm : materializeState E (load_yjs_updates_for_note db note_id) with
  | error e =>
    rw [hm] at h
    simp at h
  | ok s =>
    rw [hm] at h
    dsimp only at h
    rcases hr : replace_yjs_updates_for_note db note_id (E.encodeFullState s)
        now o with ⟨dbr, resr⟩
    rw [hr] at h
    cases resr with
    | error e => simp at h
    | ok a =>
      injection h with h1 h2
      injection h2 with h2
      subst h1
      rcases replace_outcome db note_id (E.encodeFullState s) now o dbr (.ok a) hr
        with ⟨-, e, he⟩ | ⟨-, hdb⟩
      · exact absurd he (by simp)
      · subst hdb
        refine ⟨h2.symm, s, rfl, ?_⟩
        have hself := fragsFor_replaced_self db note_id (E.encodeFullState s) now
        simpa using load_singleton _ note_id _ hself

/-- Witness for C3: compacting a note with the two fragments `[3]`, `[5]`
returns `(2, 1)` and leaves the single squashed fragment. -/
theorem compact_many_returns_single_witness :
    (2, 1) = ((load_yjs_updates_for_note
        ⟨[], [⟨0, 1, [3], 0⟩, ⟨1, 1, [5], 0⟩], 2⟩ 1).length, 1) ∧
    ∃ s, materializeState maxEngine (load_yjs_updates_for_note
        ⟨[], [⟨0, 1, [3], 0⟩, ⟨1, 1, [5], 0⟩], 2⟩ 1) = .ok s ∧
      load_yjs_updates_for_note (⟨[], [⟨2, 1, [5], 7⟩], 3⟩ : DB) 1
        = [maxEngine.encodeFullState s] :=
  compact_many_returns_single maxEngine ⟨[], [⟨0, 1, [3], 0⟩, ⟨1, 1, [5], 0⟩], 2⟩
    1 7 okOracle ⟨[], [⟨2, 1, [5], 7⟩], 3⟩ (2, 1) (by decide) (by decide)

/-- Claim C4: `compact_note_updates` on a note with zero or one stored
fragments is a no-op: it returns equal before/after counts and the stored
state bytewise unchanged. -/
theorem compact_few_noop {σ υ : Type} (E : CRDTEngine σ υ) (db : DB)
    (note_id : Int) (now : Int) (o : StorageOracle)
    (h : (load_yjs_updates_for_note db note_id).length ≤ 1) :
    compact_note_updates E db note_id now o =
      (db, .ok ((load_yjs_updates_for_note db note_id).length,
        (load_yjs_updates_for_note db note_id).length)) :=
  compact_noop E db note_id now o h

/-- Witness for C4: compacting a note with a single stored fragment returns
`(1, 1)` and the untouched store. -/
theorem compact_few_noop_witness :
    compact_note_updates maxEngine ⟨[], [⟨0, 1, [3], 0⟩], 1⟩ 1 7 okOracle =
      (⟨[], [⟨0, 1, [3], 0⟩], 1⟩,
        .ok ((load_yjs_updates_for_note ⟨[], [⟨0, 1, [3], 0⟩], 1⟩ 1).length,
          (load_yjs_updates_for_note ⟨[], [⟨0, 1, [3], 0⟩], 1⟩ 1).length)) :=
  compact_few_noop maxEngine ⟨[], [⟨0, 1, [3], 0⟩], 1⟩ 1 7 okOracle (by decide)

/-- Claim C5: the sweep `compact_all_notes` isolates failures — if
compacting one candidate note would fail, whether by a decode error on one
of its fragments or by a storage error in its replace transaction, the sweep
records that note's failure and still compacts every other candidate note
whose fragments replay and whose storage steps succeed; a single failing
note never aborts the sweep. -/
theorem compact_all_sweep_isolation {σ υ : Type} (E : CRDTEngine σ υ)
    (db : DB) (now : Int) (oracle : Int → StorageOracle) (idGood idBad : Int)
    (hgood_mem : idGood ∈ get_unique_note_ids db)
    (hgood_dec : ∃ s, materializeState E
      (load_yjs_updates_for_note db idGood) = .ok s)
    (hgood_ok : oracle idGood = okOracle)
    (hbad_mem : idBad ∈ get_unique_note_ids db)
    (hbad_fail : ∃ e, (compact_note_updates E db idBad now
      (oracle idBad)).2 = .error e) :
    (load_yjs_updates_for_note (compact_all_notes E db now oracle).1
      idGood).length = 1 ∧
    ∃ e, (idBad, e) ∈ (compact_all_notes E db now oracle).2 := by
  have hnodup : (get_unique_note_ids db).Nodup := List.nodup_dedup _
  have hone : 1 ≤ (db.fragsFor idGood).length := by
    have hne := (mem_get_unique_note_ids db idGood).mp hgood_mem
    have hpos := List.length_pos.mpr hne
    omega
  constructor
  · rw [load_length]
    exact sweepNotes_compacts E now oracle (get_unique_note_ids db) db []
      idGood hgood_ok hgood_mem hnodup hone hgood_dec
  · exact sweepNotes_records E now oracle (get_unique_note_ids db) db []
      idBad hbad_mem hnodup hbad_fail

/-- Witness for C5: note 1 holds replayable fragments `[3]`, `[5]`; note 2
holds two replayable fragments but its replace insert fails with a storage
error; note 3 holds an undecodable fragment.  The sweep still compacts
note 1 to a single fragment and records both note 2's storage failure and
note 3's decode failure. -/
theorem compact_all_sweep_isolation_witness :
    (load_yjs_updates_for_note (compact_all_notes maxEngine
      ⟨[], [⟨0, 1, [3], 0⟩, ⟨1, 1, [5], 0⟩, ⟨2, 2, [4], 0⟩, ⟨3, 2, [6], 0⟩,
        ⟨4, 3, [7, 7], 0⟩, ⟨5, 3, [8], 0⟩], 6⟩
      9 (fun j => if j = 2 then ⟨true, none, none, some "disk full", none⟩
        else okOracle)).1 1).length = 1 ∧
    (∃ e, (2, e) ∈ (compact_all_notes maxEngine
      ⟨[], [⟨0, 1, [3], 0⟩, ⟨1, 1, [5], 0⟩, ⟨2, 2, [4], 0⟩, ⟨3, 2, [6], 0⟩,
        ⟨4, 3, [7, 7], 0⟩, ⟨5, 3, [8], 0⟩], 6⟩
      9 (fun j => if j = 2 then ⟨true, none, none, some "disk full", none⟩
        else okOracle)).2) ∧
    (∃ e, (3, e) ∈ (compact_all_notes maxEngine
      ⟨[], [⟨0, 1, [3], 0⟩, ⟨1, 1, [5], 0⟩, ⟨2, 2, [4], 0⟩, ⟨3, 2, [6], 0⟩,
        ⟨4, 3, [7, 7], 0⟩, ⟨5, 3, [8], 0⟩], 6⟩
      9 (fun j => if j = 2 then ⟨true, none, none, some "disk full", none⟩
        else okOracle)).2) := by
  have hstorage := compact_all_sweep_isolation maxEngine
    ⟨[], [⟨0, 1, [3], 0⟩, ⟨1, 1, [5], 0⟩, ⟨2, 2, [4], 0⟩, ⟨3, 2, [6], 0⟩,
      ⟨4, 3, [7, 7], 0⟩, ⟨5, 3, [8], 0⟩], 6⟩
    9 (fun j => if j = 2 then ⟨true, none, none, some "disk full", none⟩
      else okOracle) 1 2 (by decide) ⟨5, by decide⟩ (by decide) (by decide)
    ⟨"disk full", by decide⟩
  have hdecode := compact_all_sweep_isolation maxEngine
    ⟨[], [⟨0, 1, [3], 0⟩, ⟨1, 1, [5], 0⟩, ⟨2, 2, [4], 0⟩, ⟨3, 2, [6], 0⟩,
      ⟨4, 3, [7, 7], 0⟩, ⟨5, 3, [8], 0⟩], 6⟩
    9 (fun j => if j = 2 then ⟨true, none, none, some "disk full", none⟩
      else okOracle) 1 3 (by decide) ⟨5, by decide⟩ (by decide) (by decide)
    ⟨"corrupt fragment", by decide⟩
  exact ⟨hstorage.1, hstorage.2, hdecode.2⟩

/-- Claim C6: if any stored fragment of a note with more than one fragment
fails to decode, `compact_note_updates` returns the decode error of the
first failing fragment (all earlier fragments decoded successfully), does
not skip it, and leaves the stored state unchanged — the replace step is
never reached. -/
theorem compact_corrupt_aborts {σ υ : Type} (E : CRDTEngine σ υ) (db : DB)
    (note_id : Int) (now : Int) (o : StorageOracle) (u : Bytes)
    (hmany : 1 < (load_yjs_updates_for_note db note_id).length)
    (hu : u ∈ load_yjs_updates_for_note db note_id)
    (hbad : ∃ e, E.decode u = .error e) :
    ∃ i v e,
      compact_note_updates E db note_id now o = (db, .error e) ∧
      (load_yjs_updates_for_note db note_id).get? i = some v ∧
      E.decode v = .error e ∧
      ∀ j w, j < i → (load_yjs_updates_for_note db note_id).get? j = some w →
        ∃ d, E.decode w = .ok d := by
  obtain ⟨e0, he0⟩ := hbad
  obtain ⟨i, v, e, hget, hdec, hearlier, happ⟩ :=
    applyUpdates_first_error E (load_yjs_updates_for_note db note_id)
      ⟨u, hu, e0, he0⟩
  exact ⟨i, v, e,
    compact_err_decode E db note_id now o e hmany (happ E.empty), hget, hdec,
    hearlier⟩

/-- Witness for C6: a note with fragments `[3]` and the undecodable
`[7, 7]`: compaction fails with the decode error of fragment index 1 and the
store is unchanged. -/
theorem compact_corrupt_aborts_witness :
    ∃ i v e,
      compact_note_updates maxEngine
          ⟨[], [⟨0, 1, [3], 0⟩, ⟨1, 1, [7, 7], 0⟩], 2⟩ 1 9 okOracle
        = (⟨[], [⟨0, 1, [3], 0⟩, ⟨1, 1, [7, 7], 0⟩], 2⟩, .error e) ∧
      (load_yjs_updates_for_note
        ⟨[], [⟨0, 1, [3], 0⟩, ⟨1, 1, [7, 7], 0⟩], 2⟩ 1).get? i = some v ∧
      maxEngine.decode v = .error e ∧
      ∀ j w, j < i →
        (load_yjs_updates_for_note
          ⟨[], [⟨0, 1, [3], 0⟩, ⟨1, 1, [7, 7], 0⟩], 2⟩ 1).get? j = some w →
        ∃ d, maxEngine.decode w = .ok d :=
  compact_corrupt_aborts maxEngine ⟨[], [⟨0, 1, [3], 0⟩, ⟨1, 1, [7, 7], 0⟩], 2⟩
    1 9 okOracle [7, 7] (by decide) (by decide) ⟨"corrupt fragment", rfl⟩

/-- Counterexample to claim C7: at a concrete store holding one note whose
`updated_at` is 0, a successful `notes_save_yjs_update` at time 5 inserts
the fragment but leaves the `notes` table — and hence the note's
user-visible `updated_at` — untouched: no row's `updated_at` equals the
time of the append. -/
theorem save_skips_timestamp_counterexample :
    (notes_save_yjs_update ⟨[⟨1, "t", "", none, 0, 0⟩], [], 0⟩ ⟨1, [7]⟩ 5
      okOracle).2 = .ok () ∧
    (notes_save_yjs_update ⟨[⟨1, "t", "", none, 0, 0⟩], [], 0⟩ ⟨1, [7]⟩ 5
      okOracle).1.notes = [⟨1, "t", "", none, 0, 0⟩] ∧
    ¬ ∃ r ∈ (notes_save_yjs_update ⟨[⟨1, "t", "", none, 0, 0⟩], [], 0⟩ ⟨1, [7]⟩ 5
      okOracle).1.notes, r.updated_at = 5 := by
  refine ⟨rfl, rfl, ?_⟩
  decide

/-- Claim C7 as amended: the edit-path append `notes_save_yjs_update` never
modifies the `notes` table (so no note's user-visible timestamps change);
its only effect, when it succeeds, is to append the single new fragment
row. -/
theorem save_leaves_note_metadata_unchanged (db : DB)
    (payload : YjsUpdatePayload) (now : Int) (o : StorageOracle) :
    (notes_save_yjs_update db payload now o).1.notes = db.notes ∧
    ((notes_save_yjs_update db payload now o).1 = db ∨
      (notes_save_yjs_update db payload now o).1.yjs_updates =
        db.yjs_updates ++
          [⟨db.next_update_id, payload.note_id, payload.update, now⟩]) := by
  rcases hs : notes_save_yjs_update db payload now o with ⟨db', res⟩
  rcases save_outcome db payload now o db' res hs with ⟨hdb, -⟩ | ⟨-, hdb⟩ <;>
    subst hdb
  · exact ⟨rfl, Or.inl rfl⟩
  · exact ⟨rfl, Or.inr rfl⟩

/-- Claim C8: compaction-triggered replacement is frame-preserving — both
`compact_note_updates` and `replace_yjs_updates_for_note` leave the `notes`
table (titles, icons, timestamps) bytewise unchanged and leave every other
note's fragment rows unchanged. -/
theorem compaction_preserves_note_metadata {σ υ : Type} (E : CRDTEngine σ υ)
    (db : DB) (note_id : Int) (u : Bytes) (now : Int) (o : StorageOracle)
    (j : Int) (hj : j ≠ note_id) :
    ((compact_note_updates E db note_id now o).1).notes = db.notes ∧
    ((compact_note_updates E db note_id now o).1).fragsFor j = db.fragsFor j ∧
    ((replace_yjs_updates_for_note db note_id u now o).1).notes = db.notes ∧
    ((replace_yjs_updates_for_note db note_id u now o).1).fragsFor j
      = db.fragsFor j := by
  have hrep : ((replace_yjs_updates_for_note db note_id u now o).1).notes
        = db.notes ∧
      ((replace_yjs_updates_for_note db note_id u now o).1).fragsFor j
        = db.fragsFor j := by
    rcases hr : replace_yjs_updates_for_note db note_id u now o with ⟨dbr, resr⟩
    rcases replace_outcome db note_id u now o dbr resr hr
      with ⟨hdb, -⟩ | ⟨-, hdb⟩ <;> subst hdb
    · exact ⟨rfl, rfl⟩
    · exact ⟨rfl, fragsFor_replaced_other db note_id u now j hj⟩
  exact ⟨(compact_frame E db note_id now o).1,
    (compact_frame E db note_id now o).2 j hj, hrep.1, hrep.2⟩

/-- Witness for C8: compacting note 1 in a concrete store leaves the note
row and note 2's fragments untouched, and so does a direct replace. -/
theorem compaction_preserves_note_metadata_witness :
    ((compact_note_updates maxEngine
      ⟨[⟨1, "t", "", none, 0, 0⟩], [⟨0, 1, [3], 0⟩, ⟨1, 1, [5], 0⟩, ⟨2, 2, [4], 0⟩], 3⟩
      1 7 okOracle).1).notes = [⟨1, "t", "", none, 0, 0⟩] ∧
    ((compact_note_updates maxEngine
      ⟨[⟨1, "t", "", none, 0, 0⟩], [⟨0, 1, [3], 0⟩, ⟨1, 1, [5], 0⟩, ⟨2, 2, [4], 0⟩], 3⟩
      1 7 okOracle).1).fragsFor 2 =
      (⟨[⟨1, "t", "", none, 0, 0⟩],
        [⟨0, 1, [3], 0⟩, ⟨1, 1, [5], 0⟩, ⟨2, 2, [4], 0⟩], 3⟩ : DB).fragsFor 2 ∧
    ((replace_yjs_updates_for_note
      ⟨[⟨1, "t", "", none, 0, 0⟩], [⟨0, 1, [3], 0⟩, ⟨1, 1, [5], 0⟩, ⟨2, 2, [4], 0⟩], 3⟩
      1 [9] 7 okOracle).1).notes = [⟨1, "t", "", none, 0, 0⟩] ∧
    ((replace_yjs_updates_for_note
      ⟨[⟨1, "t", "", none, 0, 0⟩], [⟨0, 1, [3], 0⟩, ⟨1, 1, [5], 0⟩, ⟨2, 2, [4], 0⟩], 3⟩
      1 [9] 7 okOracle).1).fragsFor 2 =
      (⟨[⟨1, "t", "", none, 0, 0⟩],
        [⟨0, 1, [3], 0⟩, ⟨1, 1, [5], 0⟩, ⟨2, 2, [4], 0⟩], 3⟩ : DB).fragsFor 2 :=
  compaction_preserves_note_metadata maxEngine
    ⟨[⟨1, "t", "", none, 0, 0⟩], [⟨0, 1, [3], 0⟩, ⟨1, 1, [5], 0⟩, ⟨2, 2, [4], 0⟩], 3⟩
    1 [9] 7 okOracle 2 (by decide)

/-- Counterexample to claim C9: a note with exactly one stored fragment IS
enumerated by `get_unique_note_ids`, so the sweep's candidate enumeration is
not restricted to notes with more than one fragment. -/
theorem sweep_candidates_counterexample :
    get_unique_note_ids ⟨[], [⟨0, 1, [7], 0⟩], 1⟩ = [1] ∧
    (load_yjs_updates_for_note ⟨[], [⟨0, 1, [7], 0⟩], 1⟩ 1).length = 1 := by
  decide

/-- Claim C9 as amended: `get_unique_note_ids` enumerates exactly the note
identifiers with at least one stored fragment (the sweep then calls
`compact_note_updates` on each of them, which is a no-op on notes with a
single fragment). -/
theorem sweep_candidates_have_fragments (db : DB) (id : Int) :
    id ∈ get_unique_note_ids db ↔
      1 ≤ (load_yjs_updates_for_note db id).length := by
  rw [mem_get_unique_note_ids, load_length]
  constructor
  · intro h
    have hpos := List.length_pos.mpr h
    omega
  · intro h hnil
    rw [hnil] at h
    simp at h

/-- Witness for C9 (amended): the single-fragment note 1 is enumerated. -/
theorem sweep_candidates_have_fragments_witness :
    1 ∈ get_unique_note_ids ⟨[], [⟨0, 1, [7], 0⟩], 1⟩ :=
  (sweep_candidates_have_fragments ⟨[], [⟨0, 1, [7], 0⟩], 1⟩ 1).mpr (by decide)

/-- Claim C10: the edit-path append performs no decoding or validation of
the fragment bytes: for every byte sequence whatsoever, whenever the lock
and the single insert succeed, `notes_save_yjs_update` succeeds and stores
the bytes verbatim as the new fragment row. -/
theorem save_stores_bytes_verbatim (db : DB) (payload : YjsUpdatePayload)
    (now : Int) (o : StorageOracle) (hlock : o.lock_ok = true)
    (hins : o.insert_err = none) :
    notes_save_yjs_update db payload now o =
      (⟨db.notes,
        db.yjs_updates ++
          [⟨db.next_update_id, payload.note_id, payload.update, now⟩],
        db.next_update_id + 1⟩, .ok ()) := by
  unfold notes_save_yjs_update
  rw [hlock, hins]
  rfl

/-- Witness for C10: appending the bytes `[9, 9]`, which the engine cannot
decode, succeeds and stores them verbatim; the corruption is only detected
later, when compaction tries to decode the note's fragments and fails. -/
theorem save_stores_bytes_verbatim_witness :
    notes_save_yjs_update ⟨[], [⟨0, 1, [7, 7], 0⟩], 1⟩ ⟨1, [9, 9]⟩ 5 okOracle =
      (⟨[], [⟨0, 1, [7, 7], 0⟩, ⟨1, 1, [9, 9], 5⟩], 2⟩, .ok ()) ∧
    compact_note_updates maxEngine
        ⟨[], [⟨0, 1, [7, 7], 0⟩, ⟨1, 1, [9, 9], 5⟩], 2⟩ 1 6 okOracle
      = (⟨[], [⟨0, 1, [7, 7], 0⟩, ⟨1, 1, [9, 9], 5⟩], 2⟩,
          .error "corrupt fragment") := by
  constructor
  · exact save_stores_bytes_verbatim ⟨[], [⟨0, 1, [7, 7], 0⟩], 1⟩ ⟨1, [9, 9]⟩ 5
      okOracle rfl rfl
  · decide
